import Mathlib

/-!
Verification of the FID / Chamfer-distance metric utilities.

This file gives a shallow embedding of the two source files
`brepdiff/metrics/fid.py` and
`brepdiff/utils/chamfer_distance/chamfer_distance.py` and proves the
frozen specification claims about them.

Modelling conventions:
* numpy arrays are modelled by `NpMat` (explicit `rows`/`cols` plus a total
  entry function) over a linear ordered field `K`; instantiating `K := ℚ`
  makes everything computable, instantiating `K := ℝ` supports the
  positive-semidefinite matrix analysis.
* `scipy.linalg.sqrtm` is an external library call; it is modelled as an
  oracle parameter `sq : NpMat K → SqrtmOut K`.  `SqrtmOut` carries the
  (possibly complex) result as a pair of real/imaginary parts together with
  the two flags the Python code branches on: `np.isfinite(...).all()`
  (IEEE non-finiteness has no exact-field counterpart, so it is part of the
  oracle output) and `np.iscomplexobj` (a dtype property).
* Python exceptions are modelled by the error type `PyErr` of an `Except`.
* `calculate_frechet_distance` is embedded in an instrumented form that also
  returns the list of matrices passed to the `sqrtm` oracle, so that claims
  about how often the square root is (re)computed are expressible; the plain
  function is its first projection.
-/

/-- Errors raised by the Python code: `assert` statements, `ValueError`s
raised by numpy on shape problems, the `ValueError("Imaginary component m")`
of `calculate_frechet_distance` (carrying the magnitude `m`), and
`NotImplementedError` for an unrecognized FID type. -/
inductive PyErr (K : Type) where
  | assertionError (msg : String)
  | valueError (msg : String)
  | valueErrorImaginary (m : K)
  | notImplementedError (msg : String)
  deriving DecidableEq

/-- Model of a 2-dimensional numpy array: an explicit shape together with a
total entry function (entries outside the shape are irrelevant junk). -/
structure NpMat (K : Type) where
  rows : ℕ
  cols : ℕ
  data : ℕ → ℕ → K

namespace NpMat

variable {K : Type} [LinearOrderedField K]

/-- Model of `np.dot` for 2-D arrays: matrix product; numpy raises a
`ValueError` when the inner dimensions disagree. -/
def dot (A B : NpMat K) : Except (PyErr K) (NpMat K) :=
  if A.cols = B.rows then
    .ok ⟨A.rows, B.cols, fun i j => ∑ k ∈ Finset.range A.cols, A.data i k * B.data k j⟩
  else
    .error (.valueError "shapes not aligned")

/-- Model of elementwise `+` of two numpy arrays of identical shape (the code
only ever adds same-shaped square arrays, so general broadcasting is not
modelled); numpy raises a `ValueError` on a shape mismatch. -/
def add (A B : NpMat K) : Except (PyErr K) (NpMat K) :=
  if A.rows = B.rows ∧ A.cols = B.cols then
    .ok ⟨A.rows, A.cols, fun i j => A.data i j + B.data i j⟩
  else
    .error (.valueError "operands could not be broadcast together")

/-- Model of `np.eye(n) * eps`. -/
def smulEye (n : ℕ) (eps : K) : NpMat K :=
  ⟨n, n, fun i j => if i = j then eps else 0⟩

/-- Model of `np.trace`: sum of the main diagonal (numpy also accepts
non-square arrays, summing `min rows cols` entries). -/
def trace (M : NpMat K) : K :=
  ∑ i ∈ Finset.range (min M.rows M.cols), M.data i i

/-- Model of `np.transpose`. -/
def transpose (M : NpMat K) : NpMat K :=
  ⟨M.cols, M.rows, fun i j => M.data j i⟩

/-- Model of `np.allclose(np.diagonal(M), 0, atol=atol)`: with reference
value `0`, numpy's criterion `|a - 0| <= atol + rtol * |0|` is exactly
`|a| <= atol`. -/
def diagAllCloseZero (M : NpMat K) (atol : K) : Bool :=
  (List.range (min M.rows M.cols)).all (fun i => decide (|M.data i i| ≤ atol))

/-- Model of `np.max(np.abs(M))` (over the whole array; `0` for an empty
array, where numpy would raise instead — the code never reaches that case
with an empty array in the claims below). -/
def maxAbs (M : NpMat K) : K :=
  ((Finset.range M.rows) ×ˢ (Finset.range M.cols)).fold max 0 (fun p => |M.data p.1 p.2|)

/-- Interpretation of a typed `n × n` matrix as an `NpMat` (entries outside
the shape are `0`). -/
def ofMatrix {n : ℕ} (A : Matrix (Fin n) (Fin n) K) : NpMat K :=
  ⟨n, n, fun i j => if h : i < n ∧ j < n then A ⟨i, h.1⟩ ⟨j, h.2⟩ else 0⟩

end NpMat

/-- Result of the `scipy.linalg.sqrtm` oracle: real and imaginary part of
the returned array, plus the two inspectable properties the Python code
branches on (`np.isfinite(...).all()` and `np.iscomplexobj`).  When
`isComplexObj = false` the array is a real array and `re` is that array. -/
structure SqrtmOut (K : Type) where
  re : NpMat K
  im : NpMat K
  isFinite : Bool
  isComplexObj : Bool

/-- Model of `mu1 - mu2` followed by `diff.dot(diff)` for 1-D arrays. -/
def dotList {K : Type} [LinearOrderedField K] (xs ys : List K) : K :=
  (List.zipWith (fun a b => a * b) xs ys).sum

/-- Embedding of `calculate_frechet_distance` from `brepdiff/metrics/fid.py`,
instrumented with the list of matrices handed to the `sqrtm` oracle.
Mirrors the source line by line:
1. the two `assert` statements on the shapes of the means and covariances;
2. `diff = mu1 - mu2`;
3. `covmean, _ = linalg.sqrtm(sigma1.dot(sigma2), disp=False)`;
4. on a non-finite result, one retry on the `eps`-regularized covariances
   (`offset = np.eye(sigma1.shape[0]) * eps`), with no finiteness re-check;
5. the complex-result handling (`np.allclose(np.diagonal(covmean).imag, 0,
   atol=1e-3)`, else `ValueError` with `np.max(np.abs(covmean.imag))`);
6. the return value `diff.dot(diff) + np.trace(sigma1) + np.trace(sigma2)
   - 2 * tr_covmean`.
The inputs are taken to be 1-D (means) and 2-D (covariances) arrays already,
as in every call site, so `np.atleast_1d` / `np.atleast_2d` are identities. -/
def calculate_frechet_distance_instr {K : Type} [LinearOrderedField K]
    (sq : NpMat K → SqrtmOut K) (mu1 : List K) (sigma1 : NpMat K)
    (mu2 : List K) (sigma2 : NpMat K) (eps : K := 1e-6) :
    Except (PyErr K) K × List (NpMat K) :=
  if mu1.length ≠ mu2.length then
    (.error (.assertionError "Training and test mean vectors have different lengths"), [])
  else if ¬ (sigma1.rows = sigma2.rows ∧ sigma1.cols = sigma2.cols) then
    (.error (.assertionError "Training and test covariances have different dimensions"), [])
  else
    let diff := List.zipWith (fun a b => a - b) mu1 mu2
    match NpMat.dot sigma1 sigma2 with
    | .error e => (.error e, [])
    | .ok prod1 =>
      let r1 := sq prod1
      let step2 : Except (PyErr K) (SqrtmOut K) × List (NpMat K) :=
        if r1.isFinite then (.ok r1, [prod1])
        else
          let offset := NpMat.smulEye sigma1.rows eps
          match NpMat.add sigma1 offset with
          | .error e => (.error e, [prod1])
          | .ok s1o =>
            match NpMat.add sigma2 offset with
            | .error e => (.error e, [prod1])
            | .ok s2o =>
              match NpMat.dot s1o s2o with
              | .error e => (.error e, [prod1])
              | .ok prod2 => (.ok (sq prod2), [prod1, prod2])
      match step2 with
      | (.error e, log) => (.error e, log)
      | (.ok cv, log) =>
        if cv.isComplexObj ∧ ¬ (NpMat.diagAllCloseZero cv.im 1e-3 = true) then
          (.error (.valueErrorImaginary (NpMat.maxAbs cv.im)), log)
        else
          (.ok (dotList diff diff + NpMat.trace sigma1 + NpMat.trace sigma2
                - 2 * NpMat.trace cv.re), log)

/-- The plain `calculate_frechet_distance`: result of the instrumented
embedding. -/
def calculate_frechet_distance {K : Type} [LinearOrderedField K]
    (sq : NpMat K → SqrtmOut K) (mu1 : List K) (sigma1 : NpMat K)
    (mu2 : List K) (sigma2 : NpMat K) (eps : K := 1e-6) :
    Except (PyErr K) K :=
  (calculate_frechet_distance_instr sq mu1 sigma1 mu2 sigma2 eps).1

/-- Chunking of the dataset into batches as done by
`torch.utils.data.DataLoader(..., batch_size, shuffle=False, drop_last=False)`:
consecutive chunks of size `bs`, the final one possibly shorter, nothing
dropped and nothing reordered.  (`bs = 0` is rejected by the real
`DataLoader`; the value here for that case is immaterial.) -/
def chunkList {α : Type} (bs : ℕ) (l : List α) : List (List α) :=
  if h : bs = 0 then []
  else
    match l with
    | [] => []
    | x :: xs => (x :: xs).take bs :: chunkList bs ((x :: xs).drop bs)
termination_by l.length
decreasing_by
  have h1 : 0 < bs := Nat.pos_of_ne_zero h
  simp only [List.length_drop]
  simp only [List.length_cons]
  omega

/-- Model of `np.concatenate(xs, axis=0)` on a list of row blocks: numpy
raises a `ValueError` on an empty list of arrays. -/
def npConcatenate {β : Type} {K : Type} (l : List (List β)) :
    Except (PyErr K) (List β) :=
  match l with
  | [] => .error (.valueError "need at least one array to concatenate")
  | _ :: _ => .ok l.flatten

/-- Embedding of `get_activations` from `brepdiff/metrics/fid.py`.  The
feature extractor, the image decoding and the preprocessing transforms are
external collaborators; they are abstracted into `model : α → List K`,
mapping one input file to its (pooled, flattened) feature row — batched
inference produces exactly one such row per sample of the batch.  Returned
are (a) whether the batch-size warning was printed, (b) the effective batch
size after the clamp, and (c) the stacked activation rows
(`np.concatenate(pred_arr, axis=0)`). -/
def get_activations {α K : Type} (model : α → List K) (files : List α)
    (batch_size : ℕ) :
    Bool × ℕ × Except (PyErr K) (List (List K)) :=
  let warned := batch_size > files.length
  let bs := if batch_size > files.length then files.length else batch_size
  let batches := chunkList bs files
  let pred_arr := batches.map (fun b => b.map model)
  (warned, bs, npConcatenate pred_arr)

/-- Description of the model constructed by the FID entry points: either a
resnet checkpoint loaded by `load_resnet(ckpt, blocks)` resp.
`load_resnet(ckpt, blocks, numClasses)`, or the `InceptionV3(blocks)`
model. -/
inductive FidModel where
  | resnet (ckpt : String) (blocks : List ℕ) (numClasses : Option ℕ)
  | inceptionV3 (blocks : List ℕ)
  deriving DecidableEq

/-- The `fid_type` dispatch of `calculate_fid_given_paths`: four accepted
tags, each bound to a model and a `normalize_rgb` flag; anything else raises
`NotImplementedError` before any statistics are computed. -/
def fidTypeDispatchPaths {K : Type} (fid_type : String) :
    Except (PyErr K) (FidModel × Bool) :=
  if fid_type = "sketch" then
    .ok (.resnet "data/resnet18_sketch" [3] none, false)
  else if fid_type = "cad" then
    .ok (.resnet "data/abc_processed/fid/resnet18_cad.ckpt" [3] none, true)
  else if fid_type = "cad_v1" then
    .ok (.resnet "data/abc_processed/fid/resnet18_cad_v1.ckpt" [3] none, true)
  else if fid_type = "vanilla" then
    .ok (.inceptionV3 [3], false)
  else
    .error (.notImplementedError (fid_type ++ " isn't a valid FID type"))

/-- The `fid_type` dispatch of `save_fid_stats` (identical tags and flags;
the two resnet-checkpoint variants additionally pass `40` as the number of
classes to `load_resnet`). -/
def fidTypeDispatchSave {K : Type} (fid_type : String) :
    Except (PyErr K) (FidModel × Bool) :=
  if fid_type = "sketch" then
    .ok (.resnet "data/resnet18_sketch" [3] none, false)
  else if fid_type = "cad" then
    .ok (.resnet "data/abc_processed/fid/resnet18_cad.ckpt" [3] (some 40), true)
  else if fid_type = "cad_v1" then
    .ok (.resnet "data/abc_processed/fid/resnet18_cad_v1.ckpt" [3] (some 40), true)
  else if fid_type = "vanilla" then
    .ok (.inceptionV3 [3], false)
  else
    .error (.notImplementedError (fid_type ++ " isn't a valid FID type"))

/-- Embedding of `calculate_fid_given_paths`: dispatch on `fid_type`, compute
the two activation statistics (abstracted into the oracle
`stats : FidModel → Bool → π → List K × NpMat K`, which stands for
`compute_statistics_of_paths` with all its external collaborators), then
`calculate_frechet_distance`. -/
def calculate_fid_given_paths {K π : Type} [LinearOrderedField K]
    (stats : FidModel → Bool → π → List K × NpMat K)
    (sq : NpMat K → SqrtmOut K) (paths : π × π) (fid_type : String) :
    Except (PyErr K) K := do
  let (model, normalize_rgb) ← fidTypeDispatchPaths fid_type
  let (m1, s1) := stats model normalize_rgb paths.1
  let (m2, s2) := stats model normalize_rgb paths.2
  calculate_frechet_distance sq m1 s1 m2 s2

/-- Embedding of `save_fid_stats`: dispatch on `fid_type`, compute the
activation statistics of the single path, return what is saved to the
compressed archive (`mu`, `sigma`). -/
def save_fid_stats {K π : Type} [LinearOrderedField K]
    (stats : FidModel → Bool → π → List K × NpMat K)
    (paths : π) (fid_type : String) :
    Except (PyErr K) (List K × NpMat K) := do
  let (model, normalize_rgb) ← fidTypeDispatchSave fid_type
  pure (stats model normalize_rgb paths)

/-- Model of a 3-dimensional point-set tensor of shape `(b, n, k)` with a
total entry function (entries outside the shape are irrelevant junk).
Entries are rational so that everything is computable. -/
structure PtTensor where
  b : ℕ
  n : ℕ
  k : ℕ
  data : ℕ → ℕ → ℕ → ℚ

/-- Model of `torch.cat([t, torch.zeros(1, t.shape[1], 1)], dim=2)` as
written in `ChamferDistanceFunction.forward`: the zeros tensor has its
batch dimension hard-coded to `1`, and `torch.cat` requires all dimensions
except the concatenation dimension to agree, so this raises a
`RuntimeError` whenever `t.b ≠ 1`. -/
def padZ (t : PtTensor) : Except String PtTensor :=
  if t.b = 1 then
    .ok ⟨1, t.n, t.k + 1, fun bi i c => if c < t.k then t.data bi i c else 0⟩
  else
    .error "Sizes of tensors must match except in dimension 2"

/-- Outputs of the Chamfer forward kernel: per-point squared nearest-neighbor
distances and the achieving indices, in both directions. -/
structure ChamferOut where
  dist1 : ℕ → ℕ → ℚ
  idx1 : ℕ → ℕ → ℕ
  dist2 : ℕ → ℕ → ℚ
  idx2 : ℕ → ℕ → ℕ

/-- Squared euclidean distance between point `i` of batch `bi` of `t1` and
point `j` of batch `bi` of `t2`, over the first three coordinates (the
compiled kernel works on 3-D points; 2-D inputs are zero-padded before it
runs). -/
def ptSqDist (t1 t2 : PtTensor) (bi i j : ℕ) : ℚ :=
  ∑ c ∈ Finset.range 3, (t1.data bi i c - t2.data bi j c) ^ 2

/-- Best (squared distance, index) pair over candidate indices `j < m`,
scanning upward and keeping the first strict minimum, starting from the
allocated defaults `(0, 0)` when `m = 0`. -/
def chamferBest (t1 t2 : PtTensor) (bi i m : ℕ) : ℚ × ℕ :=
  match m with
  | 0 => (0, 0)
  | mm + 1 =>
    (List.range (mm + 1)).tail.foldl
      (fun best j =>
        let d := ptSqDist t1 t2 bi i j
        if d < best.1 then (d, j) else best)
      (ptSqDist t1 t2 bi i 0, 0)

/-- Modelled from the spec: the compiled Chamfer forward kernel
(`cd.forward` / `cd.forward_cuda`, whose C++/CUDA sources are not part of
the repository snapshot).  "compute for every point in set A its minimum
squared distance to any point in set B and the index achieving it, and
symmetrically for B against A" — an O(N*M) brute-force nearest-neighbor
search per batch element, run independently per direction.  `batchsize` and
`n` are read from the first input and `m` from the second input, as in the
wrapper code. -/
def cdForward (xyz1 xyz2 : PtTensor) : ChamferOut :=
  { dist1 := fun bi i => (chamferBest xyz1 xyz2 bi i xyz2.n).1
    idx1 := fun bi i => (chamferBest xyz1 xyz2 bi i xyz2.n).2
    dist2 := fun bi j => (chamferBest xyz2 xyz1 bi j xyz1.n).1
    idx2 := fun bi j => (chamferBest xyz2 xyz1 bi j xyz1.n).2 }

/-- Context saved by `ctx.save_for_backward(xyz1, xyz2, idx1, idx2)`: the
(possibly padded) input tensors and the two index maps. -/
structure ChamferCtx where
  xyz1 : PtTensor
  xyz2 : PtTensor
  idx1 : ℕ → ℕ → ℕ
  idx2 : ℕ → ℕ → ℕ

/-- Embedding of `ChamferDistanceFunction.forward`: if the last dimension of
`xyz1` is `2`, both inputs are concatenated with a zero tensor of shape
`(1, shape[1], 1)` along the last dimension (which raises for batch sizes
other than 1); then the forward kernel fills the allocated outputs, and the
padded tensors together with the index maps are saved for backward. -/
def chamferForward (xyz1 xyz2 : PtTensor) :
    Except String (ChamferOut × ChamferCtx) := do
  let (p1, p2) ←
    if xyz1.k = 2 then do
      let p1 ← padZ xyz1
      let p2 ← padZ xyz2
      pure (p1, p2)
    else
      pure (xyz1, xyz2)
  let out := cdForward p1 p2
  pure (out, ⟨p1, p2, out.idx1, out.idx2⟩)

/-- Modelled from the spec: the compiled Chamfer backward kernel
(`cd.backward` / `cd.backward_cuda`, whose C++/CUDA sources are not part of
the repository snapshot).  "given gradients on the two distance vectors,
scatter-accumulate gradient contributions back to the coordinates of the
matched nearest-neighbor pairs" via the stored correspondence indices.  The
kernel writes into the zero tensors `torch.zeros(xyz1.size())` and
`torch.zeros(xyz2.size())` allocated by `backward`, hence the outputs have
exactly the shapes of the saved (padded) tensors. -/
def cdBackward (ctx : ChamferCtx) (graddist1 graddist2 : ℕ → ℕ → ℚ) :
    PtTensor × PtTensor :=
  let g1 : PtTensor :=
    ⟨ctx.xyz1.b, ctx.xyz1.n, ctx.xyz1.k, fun bi i c =>
      if c < ctx.xyz1.k then
        graddist1 bi i * (2 * (ctx.xyz1.data bi i c - ctx.xyz2.data bi (ctx.idx1 bi i) c))
        + ∑ j ∈ Finset.range ctx.xyz2.n,
            (if ctx.idx2 bi j = i then
              graddist2 bi j * (2 * (ctx.xyz1.data bi i c - ctx.xyz2.data bi j c))
            else 0)
      else 0⟩
  let g2 : PtTensor :=
    ⟨ctx.xyz2.b, ctx.xyz2.n, ctx.xyz2.k, fun bi j c =>
      if c < ctx.xyz2.k then
        graddist2 bi j * (2 * (ctx.xyz2.data bi j c - ctx.xyz1.data bi (ctx.idx2 bi j) c))
        + ∑ i ∈ Finset.range ctx.xyz1.n,
            (if ctx.idx1 bi i = j then
              graddist1 bi i * (2 * (ctx.xyz2.data bi j c - ctx.xyz1.data bi i c))
            else 0)
      else 0⟩
  (g1, g2)

/-- Embedding of `ChamferDistanceFunction.backward`: gradient tensors are
allocated as `torch.zeros(xyz1.size())` / `torch.zeros(xyz2.size())` from
the saved tensors and filled by the backward kernel. -/
def chamferBackward (ctx : ChamferCtx) (graddist1 graddist2 : ℕ → ℕ → ℚ) :
    PtTensor × PtTensor :=
  cdBackward ctx graddist1 graddist2

/-- Embedding in 3-D of a 2-D point set with a zero third coordinate (the
reference operation the specification compares the padded run against). -/
def embed3 (t : PtTensor) : PtTensor :=
  ⟨t.b, t.n, 3, fun bi i c => if c < 2 then t.data bi i c else 0⟩

section Helpers

variable {K : Type} [LinearOrderedField K]

/-- A trivial `sqrtm` oracle used to instantiate theorems on concrete
inputs: it returns its input as a finite real (non-complex) array. -/
def idSqrtm : NpMat K → SqrtmOut K :=
  fun M => ⟨M, ⟨M.rows, M.cols, fun _ _ => 0⟩, true, false⟩

theorem NpMat.dot_ofMatrix {n : ℕ} (A B : Matrix (Fin n) (Fin n) K) :
    NpMat.dot (NpMat.ofMatrix A) (NpMat.ofMatrix B) = .ok (NpMat.ofMatrix (A * B)) := by
  unfold NpMat.dot NpMat.ofMatrix
  simp only [if_pos rfl, if_true]
  congr 1
  congr 1
  funext i j
  by_cases hij : i < n ∧ j < n
  · rw [dif_pos hij]
    rw [Matrix.mul_apply]
    rw [← Fin.sum_univ_eq_sum_range (fun k => _) n]
    apply Finset.sum_congr rfl
    intro k _
    rw [dif_pos ⟨hij.1, k.isLt⟩, dif_pos ⟨k.isLt, hij.2⟩]
  · rw [dif_neg hij]
    apply Finset.sum_eq_zero
    intro k hk
    rw [Finset.mem_range] at hk
    rcases not_and_or.mp hij with hi | hj
    · rw [dif_neg (show ¬ (i < n ∧ k < n) from fun hc => hi hc.1), zero_mul]
    · rw [dif_neg (show ¬ (k < n ∧ j < n) from fun hc => hj hc.2), mul_zero]

theorem NpMat.trace_ofMatrix {n : ℕ} (A : Matrix (Fin n) (Fin n) K) :
    NpMat.trace (NpMat.ofMatrix A) = Matrix.trace A := by
  unfold NpMat.trace NpMat.ofMatrix
  simp only [Nat.min_self]
  rw [Matrix.trace]
  rw [← Fin.sum_univ_eq_sum_range (fun k => _) n]
  apply Finset.sum_congr rfl
  intro k _
  rw [dif_pos ⟨k.isLt, k.isLt⟩]
  simp [Matrix.diag]

theorem dotList_self_nonneg (xs : List K) : 0 ≤ dotList xs xs := by
  induction xs with
  | nil => simp [dotList]
  | cons x xs ih =>
    simp only [dotList, List.zipWith_cons_cons, List.sum_cons]
    have := mul_self_nonneg x
    have h2 : (0 : K) ≤ (List.zipWith (fun a b => a * b) xs xs).sum := ih
    linarith

theorem dotList_sub_self (xs : List K) :
    dotList (List.zipWith (fun a b => a - b) xs xs) (List.zipWith (fun a b => a - b) xs xs) = 0 := by
  induction xs with
  | nil => simp [dotList]
  | cons x xs ih =>
    simp only [List.zipWith_cons_cons, dotList, List.sum_cons] at ih ⊢
    simpa using ih

end Helpers

/-- Claim C6: if the two distribution summaries passed to
`calculate_frechet_distance` have mismatched dimensionality (mean shapes
differ, or covariance shapes differ), the call fails with the respective
fatal precondition assertion before any distance is computed — in
particular the `sqrtm` call log is empty. -/
theorem frechet_mismatched_dims_assert {K : Type} [LinearOrderedField K]
    (sq : NpMat K → SqrtmOut K) (mu1 mu2 : List K) (sigma1 sigma2 : NpMat K) (eps : K) :
    (mu1.length ≠ mu2.length →
      calculate_frechet_distance_instr sq mu1 sigma1 mu2 sigma2 eps =
        (.error (.assertionError "Training and test mean vectors have different lengths"), [])) ∧
    (mu1.length = mu2.length →
      ¬ (sigma1.rows = sigma2.rows ∧ sigma1.cols = sigma2.cols) →
      calculate_frechet_distance_instr sq mu1 sigma1 mu2 sigma2 eps =
        (.error (.assertionError "Training and test covariances have different dimensions"), [])) := by
  constructor
  · intro h
    unfold calculate_frechet_distance_instr
    rw [if_pos h]
  · intro h1 h2
    unfold calculate_frechet_distance_instr
    rw [if_neg (by simpa using h1), if_pos h2]

/-- Witness for C6: concrete mismatches of the mean lengths (`[0]` versus
`[0, 0]`) and of the covariance shapes (`1 × 1` versus `2 × 2`). -/
theorem frechet_mismatched_dims_assert_witness :
    calculate_frechet_distance_instr (K := ℚ) idSqrtm [0] ⟨1, 1, fun _ _ => 0⟩
        [0, 0] ⟨1, 1, fun _ _ => 0⟩ 1 =
      (.error (.assertionError "Training and test mean vectors have different lengths"), []) ∧
    calculate_frechet_distance_instr (K := ℚ) idSqrtm [0] ⟨1, 1, fun _ _ => 0⟩
        [0] ⟨2, 2, fun _ _ => 0⟩ 1 =
      (.error (.assertionError "Training and test covariances have different dimensions"), []) :=
  ⟨(frechet_mismatched_dims_assert idSqrtm [0] [0, 0] ⟨1, 1, fun _ _ => 0⟩
      ⟨1, 1, fun _ _ => 0⟩ 1).1 (by decide),
   (frechet_mismatched_dims_assert idSqrtm [0] [0] ⟨1, 1, fun _ _ => 0⟩
      ⟨2, 2, fun _ _ => 0⟩ 1).2 rfl (by decide)⟩

/-- Claim C7: the FID entry points accept exactly the four feature-extractor
tags `"sketch"`, `"cad"`, `"cad_v1"`, `"vanilla"`, each binding its specific
checkpoint/model and normalization flag; for every other tag a
`NotImplementedError` is raised immediately — in particular the statistics
oracle is never consulted (the error is the same for every `stats`). -/
theorem fid_type_dispatch_exactly_four {K : Type} [LinearOrderedField K] :
    (fidTypeDispatchPaths (K := K) "sketch" =
      .ok (.resnet "data/resnet18_sketch" [3] none, false)) ∧
    (fidTypeDispatchPaths (K := K) "cad" =
      .ok (.resnet "data/abc_processed/fid/resnet18_cad.ckpt" [3] none, true)) ∧
    (fidTypeDispatchPaths (K := K) "cad_v1" =
      .ok (.resnet "data/abc_processed/fid/resnet18_cad_v1.ckpt" [3] none, true)) ∧
    (fidTypeDispatchPaths (K := K) "vanilla" = .ok (.inceptionV3 [3], false)) ∧
    (fidTypeDispatchSave (K := K) "sketch" =
      .ok (.resnet "data/resnet18_sketch" [3] none, false)) ∧
    (fidTypeDispatchSave (K := K) "cad" =
      .ok (.resnet "data/abc_processed/fid/resnet18_cad.ckpt" [3] (some 40), true)) ∧
    (fidTypeDispatchSave (K := K) "cad_v1" =
      .ok (.resnet "data/abc_processed/fid/resnet18_cad_v1.ckpt" [3] (some 40), true)) ∧
    (fidTypeDispatchSave (K := K) "vanilla" = .ok (.inceptionV3 [3], false)) ∧
    (∀ t : String, t ∉ ["sketch", "cad", "cad_v1", "vanilla"] →
      (∀ (π : Type) (stats : FidModel → Bool → π → List K × NpMat K)
          (sq : NpMat K → SqrtmOut K) (paths : π × π),
        calculate_fid_given_paths stats sq paths t =
          .error (.notImplementedError (t ++ " isn't a valid FID type"))) ∧
      (∀ (π : Type) (stats : FidModel → Bool → π → List K × NpMat K) (paths : π),
        save_fid_stats stats paths t =
          .error (.notImplementedError (t ++ " isn't a valid FID type")))) := by
  refine ⟨rfl, rfl, rfl, rfl, rfl, rfl, rfl, rfl, ?_⟩
  intro t ht
  simp only [List.mem_cons, List.mem_singleton, not_or] at ht
  obtain ⟨h1, h2, h3, h4, -⟩ := ht
  constructor
  · intro π stats sq paths
    unfold calculate_fid_given_paths fidTypeDispatchPaths
    rw [if_neg h1, if_neg h2, if_neg h3, if_neg h4]
    rfl
  · intro π stats paths
    unfold save_fid_stats fidTypeDispatchSave
    rw [if_neg h1, if_neg h2, if_neg h3, if_neg h4]
    rfl

/-- Witness for C7: the tag `"bogus"` is rejected by both entry points with
the exact `NotImplementedError` message, for a concrete statistics oracle
that is demonstrably never consulted. -/
theorem fid_type_dispatch_exactly_four_witness :
    calculate_fid_given_paths (K := ℚ) (π := Unit)
        (fun _ _ _ => ([0], ⟨1, 1, fun _ _ => 0⟩)) idSqrtm ((), ()) "bogus" =
      .error (.notImplementedError "bogus isn't a valid FID type") ∧
    save_fid_stats (K := ℚ) (π := Unit)
        (fun _ _ _ => ([0], ⟨1, 1, fun _ _ => 0⟩)) () "bogus" =
      .error (.notImplementedError "bogus isn't a valid FID type") :=
  ⟨((fid_type_dispatch_exactly_four (K := ℚ)).2.2.2.2.2.2.2.2 "bogus" (by decide)).1
      Unit (fun _ _ _ => ([0], ⟨1, 1, fun _ _ => 0⟩)) idSqrtm ((), ()),
   ((fid_type_dispatch_exactly_four (K := ℚ)).2.2.2.2.2.2.2.2 "bogus" (by decide)).2
      Unit (fun _ _ _ => ([0], ⟨1, 1, fun _ _ => 0⟩)) ()⟩

/-- Claim C10: the dimensionality precondition of
`calculate_frechet_distance` compares only mean shapes with mean shapes and
covariance shapes with covariance shapes; when both means have length `D`
and both covariances are `n × n` with `n ≠ D`, both assertions pass and the
computation proceeds to the distance formula (here under an oracle returning
a finite real square root, i.e. the normal path). -/
theorem frechet_no_mean_cov_cross_check {K : Type} [LinearOrderedField K]
    (sq : NpMat K → SqrtmOut K) (mu1 mu2 : List K) {n : ℕ}
    (A B : Matrix (Fin n) (Fin n) K) (eps : K)
    (hlen : mu1.length = mu2.length) (hD : mu1.length ≠ n)
    (hfin : (sq (NpMat.ofMatrix (A * B))).isFinite = true)
    (hcx : (sq (NpMat.ofMatrix (A * B))).isComplexObj = false) :
    calculate_frechet_distance_instr sq mu1 (NpMat.ofMatrix A) mu2 (NpMat.ofMatrix B) eps =
      (.ok (dotList (List.zipWith (fun a b => a - b) mu1 mu2)
              (List.zipWith (fun a b => a - b) mu1 mu2)
            + Matrix.trace A + Matrix.trace B
            - 2 * NpMat.trace (sq (NpMat.ofMatrix (A * B))).re),
       [NpMat.ofMatrix (A * B)]) := by
  unfold calculate_frechet_distance_instr
  rw [if_neg (by simpa using hlen)]
  rw [if_neg (by simp [NpMat.ofMatrix])]
  rw [NpMat.dot_ofMatrix]
  simp only [hfin, if_true, hcx, Bool.false_eq_true, false_and, if_false,
    NpMat.trace_ofMatrix]

/-- Witness for C10: means of length 1, covariances of shape `2 × 2`
(identity); both assertions pass and the distance `0 + 2 + 2 - 2*2 = 0`
is computed. -/
theorem frechet_no_mean_cov_cross_check_witness :
    calculate_frechet_distance_instr (K := ℚ) idSqrtm [0]
        (NpMat.ofMatrix (1 : Matrix (Fin 2) (Fin 2) ℚ)) [0]
        (NpMat.ofMatrix (1 : Matrix (Fin 2) (Fin 2) ℚ)) 1 =
      (.ok 0, [NpMat.ofMatrix ((1 : Matrix (Fin 2) (Fin 2) ℚ) * 1)]) := by
  have h := frechet_no_mean_cov_cross_check (K := ℚ) idSqrtm [0] [0]
    (1 : Matrix (Fin 2) (Fin 2) ℚ) 1 1 rfl (by decide) rfl rfl
  rw [h]
  norm_num [dotList, idSqrtm, NpMat.trace_ofMatrix, Matrix.trace_one]

/-- Claim C3: in `calculate_frechet_distance` (with its default
`eps = 1e-6`), a non-finite matrix square root causes exactly one retry on
the covariances with `1e-6` added to their diagonals (the call log is
`[Σ1·Σ2]` when the first result is finite and `[Σ1·Σ2, (Σ1+εI)·(Σ2+εI)]`
otherwise — with no third call and no finiteness re-check, whatever the
second result's flags); afterwards, a complex result whose diagonal
imaginary part is not within `1e-3` of zero is a fatal `ValueError`
reporting `max |imag|`, and otherwise the real part is used silently. -/
theorem frechet_retry_and_complex_policy {K : Type} [LinearOrderedField K]
    (sq : NpMat K → SqrtmOut K) (mu1 mu2 : List K) (sigma1 sigma2 : NpMat K)
    (prod1 s1o s2o prod2 : NpMat K)
    (hlen : mu1.length = mu2.length)
    (hshape : sigma1.rows = sigma2.rows ∧ sigma1.cols = sigma2.cols)
    (hdot : NpMat.dot sigma1 sigma2 = .ok prod1)
    (hadd1 : NpMat.add sigma1 (NpMat.smulEye sigma1.rows (1e-6 : K)) = .ok s1o)
    (hadd2 : NpMat.add sigma2 (NpMat.smulEye sigma1.rows (1e-6 : K)) = .ok s2o)
    (hdot2 : NpMat.dot s1o s2o = .ok prod2) :
    calculate_frechet_distance_instr sq mu1 sigma1 mu2 sigma2 =
      (let cv := if (sq prod1).isFinite then sq prod1 else sq prod2
       let log := if (sq prod1).isFinite then [prod1] else [prod1, prod2]
       if cv.isComplexObj ∧ ¬ (NpMat.diagAllCloseZero cv.im 1e-3 = true) then
         (.error (.valueErrorImaginary (NpMat.maxAbs cv.im)), log)
       else
         (.ok (dotList (List.zipWith (fun a b => a - b) mu1 mu2)
                 (List.zipWith (fun a b => a - b) mu1 mu2)
               + NpMat.trace sigma1 + NpMat.trace sigma2
               - 2 * NpMat.trace cv.re), log)) := by
  unfold calculate_frechet_distance_instr
  rw [if_neg (by simpa using hlen), if_neg (by simpa using hshape), hdot]
  cases hf : (sq prod1).isFinite with
  | true => simp only [hf, if_true]
  | false =>
    simp only [hf, Bool.false_eq_true, if_false, hadd1, hadd2, hdot2]

/-- Witness for C3: a concrete run over `ℚ` exercising the retry path with
an oracle that reports a non-finite first result and a complex-typed second
result whose imaginary diagonal is negligible: with `1 × 1` zero
covariances, the regularized product is `[[1e-12]]`, the result is the
silently-taken real part (`0 + 0 + 0 - 2e-12`) and exactly two `sqrtm`
calls were made. -/
theorem frechet_retry_and_complex_policy_witness :
    (calculate_frechet_distance_instr (K := ℚ) (fun M => ⟨M, M, false, true⟩)
       [0] ⟨1, 1, fun _ _ => 0⟩ [0] ⟨1, 1, fun _ _ => 0⟩).1
      = .ok (-(2 * (1e-6 * (1e-6 : ℚ)))) ∧
    (calculate_frechet_distance_instr (K := ℚ) (fun M => ⟨M, M, false, true⟩)
       [0] ⟨1, 1, fun _ _ => 0⟩ [0] ⟨1, 1, fun _ _ => 0⟩).2.length = 2 := by
  have h := frechet_retry_and_complex_policy (K := ℚ) (fun M => ⟨M, M, false, true⟩)
    [0] [0] ⟨1, 1, fun _ _ => 0⟩ ⟨1, 1, fun _ _ => 0⟩ _ _ _ _
    rfl ⟨rfl, rfl⟩ rfl rfl rfl rfl
  rw [h]
  norm_num [NpMat.dot, NpMat.add, NpMat.smulEye, NpMat.trace, NpMat.diagAllCloseZero,
    dotList, Finset.sum_range_one, List.range_succ, List.range_zero, Nat.min_self]
  rw [if_neg (by rw [abs_of_nonneg (by norm_num : (0 : ℚ) ≤ 1 / 1000000000000)]; norm_num :
    ¬((1 : ℚ) / 1000 < |1 / 1000000000000|))]
  norm_num

theorem chunkList_flatten {α : Type} (bs : ℕ) (hbs : bs ≠ 0) (l : List α) :
    (chunkList bs l).flatten = l := by
  have H : ∀ (n : ℕ) (l : List α), l.length ≤ n → (chunkList bs l).flatten = l := by
    intro n
    induction n with
    | zero =>
      intro l hl
      have : l = [] := List.eq_nil_of_length_eq_zero (Nat.le_zero.mp hl)
      subst this
      rw [chunkList, dif_neg hbs]
      rfl
    | succ n ih =>
      intro l hl
      cases l with
      | nil => rw [chunkList, dif_neg hbs]; rfl
      | cons x xs =>
        rw [chunkList, dif_neg hbs]
        simp only [List.flatten_cons]
        have hlen : ((x :: xs).drop bs).length ≤ n := by
          simp only [List.length_drop, List.length_cons]
          simp only [List.length_cons] at hl
          have := Nat.pos_of_ne_zero hbs
          omega
        rw [ih _ hlen]
        exact List.take_append_drop bs (x :: xs)
  exact H l.length l le_rfl

theorem chunkList_ne_nil {α : Type} (bs : ℕ) (hbs : bs ≠ 0) (x : α) (xs : List α) :
    chunkList bs (x :: xs) ≠ [] := by
  rw [chunkList, dif_neg hbs]
  exact List.cons_ne_nil _ _

/-- Claim C8: in `get_activations`, a batch size larger than the number of
input files is clamped to the number of files with a printed warning (and
only then); nothing is ever dropped, so the returned activation matrix has
exactly one row per input file — it is the per-file feature rows in order. -/
theorem get_activations_clamps_and_keeps_all {α K : Type} (model : α → List K)
    (files : List α) (batch_size : ℕ) (hbs : batch_size ≠ 0) (hne : files ≠ []) :
    ((get_activations model files batch_size).1 = true ↔ files.length < batch_size) ∧
    (get_activations model files batch_size).2.1 =
      (if files.length < batch_size then files.length else batch_size) ∧
    (get_activations model files batch_size).2.2 = .ok (files.map model) ∧
    (files.map model).length = files.length := by
  have hbs2 : (if batch_size > files.length then files.length else batch_size) ≠ 0 := by
    split
    · simpa using hne
    · exact hbs
  refine ⟨by simp [get_activations, gt_iff_lt], by simp [get_activations, gt_iff_lt], ?_,
    List.length_map _ _⟩
  obtain ⟨x, xs, rfl⟩ := List.exists_cons_of_ne_nil hne
  have hnil := chunkList_ne_nil _ hbs2 x xs
  unfold get_activations npConcatenate
  cases hc : chunkList (if batch_size > (x :: xs).length then (x :: xs).length
      else batch_size) (x :: xs) with
  | nil => exact absurd hc hnil
  | cons b bsl =>
    simp only [hc, List.map_cons]
    have he : List.map model b :: List.map (fun bb => List.map model bb) bsl
        = List.map (List.map model) (b :: bsl) := rfl
    rw [he, ← List.map_flatten]
    rw [show b :: bsl = chunkList (if batch_size > (x :: xs).length then (x :: xs).length
      else batch_size) (x :: xs) from hc.symm]
    rw [chunkList_flatten _ hbs2]
    rfl

/-- Witness for C8: three files with a requested batch size of 5 — the
warning fires, the batch size is clamped to 3, and the activations have one
row per file. -/
theorem get_activations_clamps_and_keeps_all_witness :
    ((get_activations (K := ℚ) (fun n : ℕ => [(n : ℚ)]) [1, 2, 3] 5).1 = true
       ↔ ([1, 2, 3] : List ℕ).length < 5) ∧
    (get_activations (K := ℚ) (fun n : ℕ => [(n : ℚ)]) [1, 2, 3] 5).2.1 =
      (if ([1, 2, 3] : List ℕ).length < 5 then ([1, 2, 3] : List ℕ).length else 5) ∧
    (get_activations (K := ℚ) (fun n : ℕ => [(n : ℚ)]) [1, 2, 3] 5).2.2 =
      .ok (([1, 2, 3] : List ℕ).map (fun n : ℕ => [(n : ℚ)])) ∧
    (([1, 2, 3] : List ℕ).map (fun n : ℕ => [(n : ℚ)])).length =
      ([1, 2, 3] : List ℕ).length :=
  get_activations_clamps_and_keeps_all (fun n : ℕ => [(n : ℚ)]) [1, 2, 3] 5
    (by decide) (by decide)

/-- Claim C2, counterexample to the claim as stated: for batch size 2, the
Chamfer forward pass on 2-D inputs does not return the result of the 3-D
zero-padded run — it fails outright, because the zeros tensor concatenated
by the padding step has its batch dimension hard-coded to `1`, while the
3-D run succeeds. -/
theorem chamfer_2d_batch2_counterexample :
    chamferForward ⟨2, 1, 2, fun _ _ _ => 0⟩ ⟨2, 1, 2, fun _ _ _ => 0⟩ ≠
      chamferForward (embed3 ⟨2, 1, 2, fun _ _ _ => 0⟩) (embed3 ⟨2, 1, 2, fun _ _ _ => 0⟩) ∧
    chamferForward ⟨2, 1, 2, fun _ _ _ => 0⟩ ⟨2, 1, 2, fun _ _ _ => 0⟩ =
      .error "Sizes of tensors must match except in dimension 2" := by
  refine ⟨?_, rfl⟩
  intro h
  rw [show chamferForward (⟨2, 1, 2, fun _ _ _ => 0⟩ : PtTensor) ⟨2, 1, 2, fun _ _ _ => 0⟩ =
    .error "Sizes of tensors must match except in dimension 2" from rfl] at h
  rw [show chamferForward (embed3 (⟨2, 1, 2, fun _ _ _ => 0⟩ : PtTensor))
      (embed3 ⟨2, 1, 2, fun _ _ _ => 0⟩) =
    .ok (cdForward (embed3 ⟨2, 1, 2, fun _ _ _ => 0⟩) (embed3 ⟨2, 1, 2, fun _ _ _ => 0⟩),
      ⟨embed3 ⟨2, 1, 2, fun _ _ _ => 0⟩, embed3 ⟨2, 1, 2, fun _ _ _ => 0⟩,
        (cdForward (embed3 ⟨2, 1, 2, fun _ _ _ => 0⟩) (embed3 ⟨2, 1, 2, fun _ _ _ => 0⟩)).idx1,
        (cdForward (embed3 ⟨2, 1, 2, fun _ _ _ => 0⟩)
          (embed3 ⟨2, 1, 2, fun _ _ _ => 0⟩)).idx2⟩) from rfl] at h
  simp at h

/-- Claim C2, amended: for batch size 1 (the only batch size for which the
hard-coded `torch.zeros(1, n, 1)` concatenation succeeds), the Chamfer
forward pass on 2-D inputs (`k = 2` for both point sets) returns exactly
the result of running it on the same points embedded in 3-D with a zero
third coordinate. -/
theorem chamfer_2d_matches_padded_3d (t1 t2 : PtTensor)
    (hk1 : t1.k = 2) (hk2 : t2.k = 2) (hb1 : t1.b = 1) (hb2 : t2.b = 1) :
    chamferForward t1 t2 = chamferForward (embed3 t1) (embed3 t2) := by
  obtain ⟨b1, n1, k1, d1⟩ := t1
  obtain ⟨b2, n2, k2, d2⟩ := t2
  simp only at hk1 hk2 hb1 hb2
  subst hk1 hk2 hb1 hb2
  rfl

/-- Witness for the amended C2: a concrete batch-1 pair of 2-D point sets. -/
theorem chamfer_2d_matches_padded_3d_witness :
    chamferForward ⟨1, 2, 2, fun _ i c => (i : ℚ) + c⟩ ⟨1, 1, 2, fun _ _ _ => 3⟩ =
      chamferForward (embed3 ⟨1, 2, 2, fun _ i c => (i : ℚ) + c⟩)
        (embed3 ⟨1, 1, 2, fun _ _ _ => 3⟩) :=
  chamfer_2d_matches_padded_3d ⟨1, 2, 2, fun _ i c => (i : ℚ) + c⟩
    ⟨1, 1, 2, fun _ _ _ => 3⟩ rfl rfl rfl rfl

/-- Claim C9: when `ChamferDistanceFunction.forward` receives 2-D inputs
(and batch size 1, so that the padding succeeds), the saved-for-backward
tensors are the padded 3-coordinate tensors, not the original 2-coordinate
inputs, and `backward` allocates and returns gradient tensors shaped like
those saved tensors — so the returned gradients have last dimension 3
rather than matching the original `(batch, N, 2)` shapes. -/
theorem chamfer_backward_padded_shapes (t1 t2 : PtTensor)
    (hk1 : t1.k = 2) (hk2 : t2.k = 2) (hb1 : t1.b = 1) (hb2 : t2.b = 1)
    (out : ChamferOut) (ctx : ChamferCtx)
    (hfwd : chamferForward t1 t2 = .ok (out, ctx))
    (g1 g2 : ℕ → ℕ → ℚ) :
    ctx.xyz1 = embed3 t1 ∧ ctx.xyz2 = embed3 t2 ∧
    (chamferBackward ctx g1 g2).1.b = t1.b ∧ (chamferBackward ctx g1 g2).1.n = t1.n ∧
    (chamferBackward ctx g1 g2).1.k = 3 ∧
    (chamferBackward ctx g1 g2).2.b = t2.b ∧ (chamferBackward ctx g1 g2).2.n = t2.n ∧
    (chamferBackward ctx g1 g2).2.k = 3 := by
  obtain ⟨b1, n1, k1, d1⟩ := t1
  obtain ⟨b2, n2, k2, d2⟩ := t2
  simp only at hk1 hk2 hb1 hb2
  subst hk1 hk2 hb1 hb2
  rw [show chamferForward ⟨1, n1, 2, d1⟩ ⟨1, n2, 2, d2⟩ =
    .ok (cdForward (embed3 ⟨1, n1, 2, d1⟩) (embed3 ⟨1, n2, 2, d2⟩),
      ⟨embed3 ⟨1, n1, 2, d1⟩, embed3 ⟨1, n2, 2, d2⟩,
        (cdForward (embed3 ⟨1, n1, 2, d1⟩) (embed3 ⟨1, n2, 2, d2⟩)).idx1,
        (cdForward (embed3 ⟨1, n1, 2, d1⟩) (embed3 ⟨1, n2, 2, d2⟩)).idx2⟩) from rfl] at hfwd
  simp only [Except.ok.injEq, Prod.mk.injEq] at hfwd
  obtain ⟨-, hctx⟩ := hfwd
  subst hctx
  exact ⟨rfl, rfl, rfl, rfl, rfl, rfl, rfl, rfl⟩

/-- Witness for C9: a concrete batch-1 pair of 2-D point sets, with the
gradients of the two distance vectors all equal to `1`. -/
theorem chamfer_backward_padded_shapes_witness :
    (chamferForward ⟨1, 2, 2, fun _ i c => (i : ℚ) + c⟩
        ⟨1, 1, 2, fun _ _ _ => 3⟩).map (fun r =>
          ((chamferBackward r.2 (fun _ _ => 1) (fun _ _ => 1)).1.k,
           (chamferBackward r.2 (fun _ _ => 1) (fun _ _ => 1)).2.k)) = .ok (3, 3) := by
  cases hfwd : chamferForward (⟨1, 2, 2, fun _ i c => (i : ℚ) + c⟩ : PtTensor)
      ⟨1, 1, 2, fun _ _ _ => 3⟩ with
  | error e =>
    exact absurd hfwd (by
      rw [show chamferForward (⟨1, 2, 2, fun _ i c => (i : ℚ) + c⟩ : PtTensor)
          ⟨1, 1, 2, fun _ _ _ => 3⟩ =
        .ok (cdForward (embed3 ⟨1, 2, 2, fun _ i c => (i : ℚ) + c⟩)
            (embed3 ⟨1, 1, 2, fun _ _ _ => 3⟩),
          ⟨embed3 ⟨1, 2, 2, fun _ i c => (i : ℚ) + c⟩, embed3 ⟨1, 1, 2, fun _ _ _ => 3⟩,
            (cdForward (embed3 ⟨1, 2, 2, fun _ i c => (i : ℚ) + c⟩)
              (embed3 ⟨1, 1, 2, fun _ _ _ => 3⟩)).idx1,
            (cdForward (embed3 ⟨1, 2, 2, fun _ i c => (i : ℚ) + c⟩)
              (embed3 ⟨1, 1, 2, fun _ _ _ => 3⟩)).idx2⟩) from rfl]
      simp)
  | ok r =>
    obtain ⟨out, ctx⟩ := r
    have h := chamfer_backward_padded_shapes ⟨1, 2, 2, fun _ i c => (i : ℚ) + c⟩
      ⟨1, 1, 2, fun _ _ _ => 3⟩ rfl rfl rfl rfl out ctx hfwd
      (fun _ _ => 1) (fun _ _ => 1)
    simp only [Except.map, hfwd]
    exact congrArg Except.ok (by
      rw [Prod.mk.injEq]
      exact ⟨h.2.2.2.2.1, h.2.2.2.2.2.2.2⟩)

section TransposeLemmas

variable {K : Type} [LinearOrderedField K]

theorem NpMat.extEq {A B : NpMat K} (hr : A.rows = B.rows) (hc : A.cols = B.cols)
    (hd : A.data = B.data) : A = B := by
  cases A; cases B; simp_all

theorem NpMat.trace_transpose (M : NpMat K) : M.transpose.trace = M.trace := by
  unfold NpMat.trace NpMat.transpose
  rw [Nat.min_comm]

theorem NpMat.diagAllCloseZero_transpose (M : NpMat K) (atol : K) :
    M.transpose.diagAllCloseZero atol = M.diagAllCloseZero atol := by
  unfold NpMat.diagAllCloseZero NpMat.transpose
  rw [Nat.min_comm]

theorem NpMat.maxAbs_transpose (M : NpMat K) : M.transpose.maxAbs = M.maxAbs := by
  unfold NpMat.maxAbs NpMat.transpose
  rw [← Finset.map_swap_product, Finset.fold_map]
  rfl

theorem NpMat.dot_transpose_ok {A B P : NpMat K} (h : NpMat.dot A B = .ok P) :
    NpMat.dot B.transpose A.transpose = .ok P.transpose := by
  unfold NpMat.dot at h ⊢
  by_cases hc : A.cols = B.rows
  · rw [if_pos hc] at h
    rw [if_pos (show B.transpose.cols = A.transpose.rows from hc.symm)]
    simp only [Except.ok.injEq] at h
    subst h
    simp only [Except.ok.injEq]
    refine NpMat.extEq rfl rfl ?_
    funext i j
    unfold NpMat.transpose
    dsimp only
    rw [hc]
    exact Finset.sum_congr rfl fun k _ => mul_comm _ _
  · rw [if_neg hc] at h
    cases h
theorem NpMat.dot_transpose_error {A B : NpMat K} {e : PyErr K}
    (h : NpMat.dot A B = .error e) :
    NpMat.dot B.transpose A.transpose = .error e := by
  unfold NpMat.dot at h ⊢
  by_cases hc : A.cols = B.rows
  · rw [if_pos hc] at h; cases h
  · rw [if_neg hc] at h
    rw [if_neg (show ¬ B.transpose.cols = A.transpose.rows from fun hh => hc hh.symm)]
    exact h

theorem NpMat.dot_error_msg {A B : NpMat K} {e : PyErr K}
    (h : NpMat.dot A B = .error e) : e = .valueError "shapes not aligned" := by
  unfold NpMat.dot at h
  split at h
  · cases h
  · cases h; rfl

theorem NpMat.add_error_msg {A B : NpMat K} {e : PyErr K}
    (h : NpMat.add A B = .error e) :
    e = .valueError "operands could not be broadcast together" := by
  unfold NpMat.add at h
  split at h
  · cases h
  · cases h; rfl

theorem NpMat.smulEye_transpose (n : ℕ) (eps : K) :
    (NpMat.smulEye n eps).transpose = NpMat.smulEye n eps := by
  refine NpMat.extEq rfl rfl ?_
  funext i j
  unfold NpMat.smulEye NpMat.transpose
  dsimp only
  by_cases h : i = j
  · subst h; rfl
  · rw [if_neg h, if_neg (fun hh => h hh.symm)]

theorem NpMat.add_ok_transpose {A B C : NpMat K} (hA : A.transpose = A)
    (hB : B.transpose = B) (h : NpMat.add A B = .ok C) : C.transpose = C := by
  unfold NpMat.add at h
  split at h
  · simp only [Except.ok.injEq] at h
    subst h
    have hAr : A.cols = A.rows := congrArg NpMat.rows hA
    have hAd : (fun i j => A.data j i) = A.data := congrArg NpMat.data hA
    have hBd : (fun i j => B.data j i) = B.data := congrArg NpMat.data hB
    refine NpMat.extEq hAr hAr.symm ?_
    funext i j
    unfold NpMat.transpose
    dsimp only
    rw [← congrFun (congrFun hAd i) j, ← congrFun (congrFun hBd i) j]
  · cases h

theorem dotList_zipWith_sub_comm (a b : List K) :
    dotList (List.zipWith (fun x y => x - y) a b) (List.zipWith (fun x y => x - y) a b) =
      dotList (List.zipWith (fun x y => x - y) b a) (List.zipWith (fun x y => x - y) b a) := by
  induction a generalizing b with
  | nil => cases b <;> rfl
  | cons x xs ih =>
    cases b with
    | nil => rfl
    | cons y ys =>
      simp only [List.zipWith_cons_cons, dotList, List.sum_cons] at ih ⊢
      rw [show (x - y) * (x - y) = (y - x) * (y - x) by ring, ih ys]

end TransposeLemmas

/-- Transpose of a `sqrtm` oracle result: both parts transposed, flags
unchanged — the behaviour of `scipy.linalg.sqrtm` on a transposed input,
since the principal square root of `Mᵀ` is the transpose of that of `M`,
entrywise finiteness is preserved, and the result dtype is the same. -/
def SqrtmOut.transposeOut {K : Type} (o : SqrtmOut K) : SqrtmOut K :=
  ⟨o.re.transpose, o.im.transpose, o.isFinite, o.isComplexObj⟩

/-- Claim C4: `calculate_frechet_distance` is symmetric in its two
summaries, for symmetric covariance matrices (which genuine covariances
are) and a `sqrtm` oracle that commutes with transposition (which the
principal matrix square root does). -/
theorem frechet_symmetric {K : Type} [LinearOrderedField K]
    (sq : NpMat K → SqrtmOut K) (mu1 mu2 : List K) (s1 s2 : NpMat K) (eps : K)
    (hsym1 : s1.transpose = s1) (hsym2 : s2.transpose = s2)
    (hsq : ∀ M : NpMat K, sq M.transpose = (sq M).transposeOut) :
    calculate_frechet_distance sq mu1 s1 mu2 s2 eps =
      calculate_frechet_distance sq mu2 s2 mu1 s1 eps := by
  unfold calculate_frechet_distance calculate_frechet_distance_instr
  by_cases hlen : mu1.length = mu2.length
  case neg =>
    rw [if_pos (show mu1.length ≠ mu2.length from hlen),
      if_pos (show mu2.length ≠ mu1.length from Ne.symm hlen)]
  case pos =>
    rw [if_neg (show ¬ mu1.length ≠ mu2.length from not_not_intro hlen),
      if_neg (show ¬ mu2.length ≠ mu1.length from not_not_intro hlen.symm)]
    by_cases hsh : s1.rows = s2.rows ∧ s1.cols = s2.cols
    case neg =>
      rw [if_pos hsh,
        if_pos (show ¬ (s2.rows = s1.rows ∧ s2.cols = s1.cols) from
          fun h => hsh ⟨h.1.symm, h.2.symm⟩)]
    case pos =>
      rw [if_neg (not_not_intro hsh),
        if_neg (not_not_intro ⟨hsh.1.symm, hsh.2.symm⟩)]
      cases hdot : NpMat.dot s1 s2 with
      | error e =>
        have hdot2 : NpMat.dot s2 s1 = .error e := by
          conv_lhs => rw [← hsym2, ← hsym1]
          exact NpMat.dot_transpose_error hdot
        rw [hdot2]
      | ok P =>
        have hdot2 : NpMat.dot s2 s1 = .ok P.transpose := by
          conv_lhs => rw [← hsym2, ← hsym1]
          exact NpMat.dot_transpose_ok hdot
        rw [hdot2]
        dsimp only
        rw [hsq P]
        by_cases hf : (sq P).isFinite = true
        case pos =>
          rw [if_pos hf, if_pos (show (sq P).transposeOut.isFinite = true from hf)]
          dsimp only [SqrtmOut.transposeOut]
          rw [NpMat.diagAllCloseZero_transpose, NpMat.maxAbs_transpose,
            NpMat.trace_transpose, dotList_zipWith_sub_comm mu2 mu1]
          by_cases hcx : (sq P).isComplexObj = true
            ∧ ¬ (NpMat.diagAllCloseZero (sq P).im 1e-3 = true)
          · rw [if_pos hcx, if_pos hcx]
          · rw [if_neg hcx, if_neg hcx]
            dsimp only
            congr 1
            ring
        case neg =>
          rw [if_neg hf, if_neg (show ¬ (sq P).transposeOut.isFinite = true from hf)]
          rw [show s2.rows = s1.rows from hsh.1.symm]
          cases hadd1 : NpMat.add s1 (NpMat.smulEye s1.rows eps) with
          | error e1 =>
            cases hadd2 : NpMat.add s2 (NpMat.smulEye s1.rows eps) with
            | error e2 =>
              rw [NpMat.add_error_msg hadd1, NpMat.add_error_msg hadd2]
            | ok s2o => rfl
          | ok s1o =>
            cases hadd2 : NpMat.add s2 (NpMat.smulEye s1.rows eps) with
            | error e2 => rfl
            | ok s2o =>
              have hs1o : s1o.transpose = s1o :=
                NpMat.add_ok_transpose hsym1 (NpMat.smulEye_transpose _ _) hadd1
              have hs2o : s2o.transpose = s2o :=
                NpMat.add_ok_transpose hsym2 (NpMat.smulEye_transpose _ _) hadd2
              dsimp only
              cases hdd : NpMat.dot s1o s2o with
              | error e3 =>
                have hdd2 : NpMat.dot s2o s1o = .error e3 := by
                  conv_lhs => rw [← hs2o, ← hs1o]
                  exact NpMat.dot_transpose_error hdd
                rw [hdd2]
              | ok prod2 =>
                have hdd2 : NpMat.dot s2o s1o = .ok prod2.transpose := by
                  conv_lhs => rw [← hs2o, ← hs1o]
                  exact NpMat.dot_transpose_ok hdd
                rw [hdd2]
                dsimp only
                rw [hsq prod2]
                dsimp only [SqrtmOut.transposeOut]
                rw [NpMat.diagAllCloseZero_transpose, NpMat.maxAbs_transpose,
                  NpMat.trace_transpose, dotList_zipWith_sub_comm mu2 mu1]
                by_cases hcx : (sq prod2).isComplexObj = true
                  ∧ ¬ (NpMat.diagAllCloseZero (sq prod2).im 1e-3 = true)
                · rw [if_pos hcx, if_pos hcx]
                · rw [if_neg hcx, if_neg hcx]
                  dsimp only
                  congr 1
                  ring

/-- Witness for C4: concrete symmetric `1 × 1` covariances and distinct
means, with a transpose-equivariant oracle. -/
theorem frechet_symmetric_witness :
    calculate_frechet_distance (K := ℚ) idSqrtm [0] ⟨1, 1, fun _ _ => 2⟩
        [1] ⟨1, 1, fun _ _ => 3⟩ 1 =
      calculate_frechet_distance (K := ℚ) idSqrtm [1] ⟨1, 1, fun _ _ => 3⟩
        [0] ⟨1, 1, fun _ _ => 2⟩ 1 :=
  frechet_symmetric idSqrtm [0] [1] ⟨1, 1, fun _ _ => 2⟩ ⟨1, 1, fun _ _ => 3⟩ 1
    rfl rfl (fun _ => rfl)

/-- Claim C5: `calculate_frechet_distance` of a summary against an identical
copy of itself is exactly `0` (in exact arithmetic; "within floating-point
tolerance" in the Python floats), for a positive-semidefinite covariance
and a `sqrtm` oracle that returns a finite real positive-semidefinite
square root of `Σ·Σ` — necessarily `Σ` itself, by uniqueness of the
positive-semidefinite square root. -/
theorem frechet_self_distance_zero {n : ℕ} (mu : List ℝ)
    (S : Matrix (Fin n) (Fin n) ℝ) (hS : S.PosSemidef)
    (sq : NpMat ℝ → SqrtmOut ℝ) (eps : ℝ)
    (hfin : (sq (NpMat.ofMatrix (S * S))).isFinite = true)
    (hcx : (sq (NpMat.ofMatrix (S * S))).isComplexObj = false)
    (O : Matrix (Fin n) (Fin n) ℝ)
    (hre : (sq (NpMat.ofMatrix (S * S))).re = NpMat.ofMatrix O)
    (hO : O.PosSemidef) (hOsq : O * O = S * S) :
    calculate_frechet_distance sq mu (NpMat.ofMatrix S) mu (NpMat.ofMatrix S) eps =
      .ok 0 := by
  have hOS : O = S := hO.eq_of_sq_eq_sq hS (by rw [pow_two, pow_two, hOsq])
  unfold calculate_frechet_distance calculate_frechet_distance_instr
  rw [if_neg (not_not_intro rfl), if_neg (not_not_intro ⟨rfl, rfl⟩)]
  rw [NpMat.dot_ofMatrix]
  dsimp only
  rw [hfin]
  simp only [if_true]
  rw [if_neg (by rw [hcx]; simp)]
  rw [hre, hOS, NpMat.trace_ofMatrix, dotList_sub_self]
  dsimp only
  rw [show (0 : ℝ) + Matrix.trace S + Matrix.trace S - 2 * Matrix.trace S = 0 by ring]

/-- Witness for C5: the `1 × 1` identity covariance with mean `[5]`, and an
oracle returning the input unchanged (indeed the positive-semidefinite
square root of `1 * 1`). -/
theorem frechet_self_distance_zero_witness :
    calculate_frechet_distance (K := ℝ) idSqrtm [5]
        (NpMat.ofMatrix (1 : Matrix (Fin 1) (Fin 1) ℝ)) [5]
        (NpMat.ofMatrix (1 : Matrix (Fin 1) (Fin 1) ℝ)) 1 = .ok 0 :=
  frechet_self_distance_zero [5] (1 : Matrix (Fin 1) (Fin 1) ℝ) Matrix.PosSemidef.one
    idSqrtm 1 rfl rfl (1 * 1) rfl
    (by rw [one_mul]; exact Matrix.PosSemidef.one) (by simp)

section FrechetNonneg

open Matrix

/-- The trace of a real positive-semidefinite matrix is non-negative. -/
theorem psd_trace_nonneg {n : ℕ} {M : Matrix (Fin n) (Fin n) ℝ}
    (hM : M.PosSemidef) : 0 ≤ M.trace := by
  rw [Matrix.trace]
  refine Finset.sum_nonneg fun i _ => ?_
  have h := hM.2 (Pi.single i 1)
  simpa [Matrix.dotProduct, Matrix.mulVec, Pi.single_apply, Matrix.diag] using h

/-- The trace of a product of two real positive-semidefinite matrices is
non-negative. -/
theorem psd_trace_mul_nonneg {n : ℕ} {A B : Matrix (Fin n) (Fin n) ℝ}
    (hA : A.PosSemidef) (hB : B.PosSemidef) : 0 ≤ (A * B).trace := by
  have hS := hA.posSemidef_sqrt
  have hSS : hA.sqrt * hA.sqrt = A := by rw [← pow_two]; exact hA.sq_sqrt
  have h1 : (hA.sqrt * B * hA.sqrt).trace = (A * B).trace := by
    rw [Matrix.trace_mul_cycle, hSS]
  have h2 : (hA.sqrt * B * hA.sqrt).PosSemidef := by
    have h3 := hB.mul_mul_conjTranspose_same hA.sqrt
    rwa [show hA.sqrtᴴ = hA.sqrt from hS.isHermitian] at h3
  rw [← h1]
  exact psd_trace_nonneg h2

/-- Cauchy–Schwarz for the trace of a product against the Frobenius norms. -/
theorem trace_mul_sq_le {n : ℕ} (R G : Matrix (Fin n) (Fin n) ℝ) :
    ((R * G).trace) ^ 2 ≤ (R * Rᵀ).trace * (G * Gᵀ).trace := by
  have h1 : (R * G).trace = ∑ p : Fin n × Fin n, R p.1 p.2 * G p.2 p.1 := by
    rw [Matrix.trace, ← Finset.univ_product_univ, Finset.sum_product]
    exact Finset.sum_congr rfl fun i _ => by rw [Matrix.diag, Matrix.mul_apply]
  have h2 : (R * Rᵀ).trace = ∑ p : Fin n × Fin n, (R p.1 p.2) ^ 2 := by
    rw [Matrix.trace, ← Finset.univ_product_univ, Finset.sum_product]
    refine Finset.sum_congr rfl fun i _ => ?_
    rw [Matrix.diag, Matrix.mul_apply]
    exact Finset.sum_congr rfl fun j _ => by rw [Matrix.transpose_apply, sq]
  have h3 : (G * Gᵀ).trace = ∑ p : Fin n × Fin n, (G p.2 p.1) ^ 2 := by
    conv_rhs => rw [← Finset.univ_product_univ, Finset.sum_product]
    rw [Finset.sum_comm, Matrix.trace]
    refine Finset.sum_congr rfl fun j _ => ?_
    rw [Matrix.diag, Matrix.mul_apply]
    exact Finset.sum_congr rfl fun i _ => by rw [Matrix.transpose_apply, sq]
  rw [h1, h2, h3]
  exact Finset.sum_mul_sq_le_sq_mul_sq Finset.univ _ _

/-- Key trace inequality behind the non-negativity of the Fréchet distance:
if `C` is positive semidefinite with `C² = (Y·Z)·(Y·Z)ᵀ`, then
`2·tr C ≤ tr(Y·Yᵀ) + tr(Z·Zᵀ)` (the nuclear norm of `Y·Z` is at most the
product — hence at most the mean — of the Frobenius norms of `Y` and `Z`). -/
theorem trace_sqrt_factor_le {n : ℕ} (C Y Z : Matrix (Fin n) (Fin n) ℝ)
    (hC : C.PosSemidef) (h : C * C = (Y * Z) * (Y * Z)ᵀ) :
    2 * C.trace ≤ (Y * Yᵀ).trace + (Z * Zᵀ).trace := by
  classical
  have hH : C.IsHermitian := hC.isHermitian
  set μ : Fin n → ℝ := hH.eigenvalues with hμ
  have hμ0 : ∀ i, 0 ≤ μ i := fun i => hC.eigenvalues_nonneg i
  set U : Matrix (Fin n) (Fin n) ℝ := (hH.eigenvectorUnitary : Matrix (Fin n) (Fin n) ℝ)
    with hUdef
  have hU1 : U * Uᵀ = 1 := by
    have h0 := Matrix.mem_unitaryGroup_iff.mp (hH.eigenvectorUnitary).2
    rwa [Matrix.star_eq_conjTranspose, Matrix.conjTranspose_eq_transpose_of_trivial] at h0
  have hU2 : Uᵀ * U = 1 := by
    have h0 := Matrix.mem_unitaryGroup_iff'.mp (hH.eigenvectorUnitary).2
    rwa [Matrix.star_eq_conjTranspose, Matrix.conjTranspose_eq_transpose_of_trivial] at h0
  have hdiag : Uᵀ * C * U = Matrix.diagonal μ := by
    have h0 := hH.star_mul_self_mul_eq_diagonal
    rw [Matrix.star_eq_conjTranspose, Matrix.conjTranspose_eq_transpose_of_trivial,
      RCLike.ofReal_real_eq_id] at h0
    simpa using h0
  have htrC : C.trace = ∑ i, μ i := by
    have h0 : (Uᵀ * C * U).trace = C.trace := by
      rw [Matrix.trace_mul_cycle, hU1, Matrix.one_mul]
    rw [← h0, hdiag, Matrix.trace_diagonal]
  set W : Matrix (Fin n) (Fin n) ℝ := Uᵀ * (Y * Z) with hW
  have hWWt : W * Wᵀ = Matrix.diagonal (fun i => μ i * μ i) := by
    rw [hW, Matrix.transpose_mul, Matrix.transpose_transpose]
    have e1 : Uᵀ * (Y * Z) * ((Y * Z)ᵀ * U) = Uᵀ * ((Y * Z) * (Y * Z)ᵀ) * U := by
      simp only [Matrix.mul_assoc]
    rw [e1, ← h]
    have e2 : Uᵀ * (C * C) * U = (Uᵀ * C * U) * (Uᵀ * C * U) := by
      have e3 : U * (Uᵀ * (C * U)) = C * U := by
        rw [← Matrix.mul_assoc, hU1, Matrix.one_mul]
      simp only [Matrix.mul_assoc, e3]
    rw [e2, hdiag, Matrix.diagonal_mul_diagonal]
  set ν : Fin n → ℝ := fun i => if μ i = 0 then 0 else (μ i)⁻¹ with hν
  obtain ⟨T, hT⟩ : ∃ T : Matrix (Fin n) (Fin n) ℝ, T = Matrix.diagonal ν * W := ⟨_, rfl⟩
  have hTTt : T * Tᵀ = Matrix.diagonal (fun i => if μ i = 0 then 0 else 1) := by
    rw [hT, Matrix.transpose_mul, Matrix.diagonal_transpose]
    have e1 : Matrix.diagonal ν * W * (Wᵀ * Matrix.diagonal ν) =
        Matrix.diagonal ν * (W * Wᵀ) * Matrix.diagonal ν := by
      simp only [Matrix.mul_assoc]
    rw [e1, hWWt, Matrix.diagonal_mul_diagonal, Matrix.diagonal_mul_diagonal]
    refine congrArg Matrix.diagonal ?_
    funext i
    by_cases hi : μ i = 0
    · simp [hν, hi]
    · field_simp [hν, hi]
  have hWTt : W * Tᵀ = Matrix.diagonal μ := by
    rw [hT, Matrix.transpose_mul, Matrix.diagonal_transpose, ← Matrix.mul_assoc,
      hWWt, Matrix.diagonal_mul_diagonal]
    refine congrArg Matrix.diagonal ?_
    funext i
    by_cases hi : μ i = 0
    · simp [hν, hi]
    · field_simp [hν, hi]
  have hET : Matrix.diagonal (fun i => if μ i = 0 then 0 else (1 : ℝ)) * T = T := by
    rw [hT, ← Matrix.mul_assoc, Matrix.diagonal_mul_diagonal]
    refine congrArg (fun d => Matrix.diagonal d * W) ?_
    funext i
    by_cases hi : μ i = 0 <;> simp [hν, hi]
  have hP2 : (Tᵀ * T) * (Tᵀ * T) = Tᵀ * T := by
    have e1 : (Tᵀ * T) * (Tᵀ * T) = Tᵀ * ((T * Tᵀ) * T) := by
      simp only [Matrix.mul_assoc]
    rw [e1, hTTt, hET]
  have hPsym : (Tᵀ * T)ᵀ = Tᵀ * T := by
    rw [Matrix.transpose_mul, Matrix.transpose_transpose]
  have hRG : (Uᵀ * Y) * (Z * Tᵀ) = W * Tᵀ := by
    rw [hW]; simp only [Matrix.mul_assoc]
  have htrRG : ((Uᵀ * Y) * (Z * Tᵀ)).trace = C.trace := by
    rw [hRG, hWTt, Matrix.trace_diagonal, htrC]
  have hRRt : ((Uᵀ * Y) * (Uᵀ * Y)ᵀ).trace = (Y * Yᵀ).trace := by
    rw [Matrix.transpose_mul, Matrix.transpose_transpose]
    have e : Uᵀ * Y * (Yᵀ * U) = Uᵀ * (Y * Yᵀ) * U := by simp only [Matrix.mul_assoc]
    rw [e, Matrix.trace_mul_cycle, hU1, Matrix.one_mul]
  have hZZ : (Zᵀ * Z).PosSemidef := by
    have h0 := Matrix.posSemidef_conjTranspose_mul_self Z
    rwa [Matrix.conjTranspose_eq_transpose_of_trivial] at h0
  have h1P : (1 - Tᵀ * T).PosSemidef := by
    have hs : (1 - Tᵀ * T)ᵀ = 1 - Tᵀ * T := by
      rw [Matrix.transpose_sub, Matrix.transpose_one, hPsym]
    have hsq : (1 - Tᵀ * T)ᵀ * (1 - Tᵀ * T) = 1 - Tᵀ * T := by
      rw [hs, Matrix.mul_sub, Matrix.mul_one, Matrix.sub_mul, Matrix.one_mul, hP2]
      abel
    have h0 := Matrix.posSemidef_conjTranspose_mul_self (1 - Tᵀ * T)
    rwa [Matrix.conjTranspose_eq_transpose_of_trivial, hsq] at h0
  have hGGt : ((Z * Tᵀ) * (Z * Tᵀ)ᵀ).trace ≤ (Z * Zᵀ).trace := by
    rw [Matrix.transpose_mul, Matrix.transpose_transpose]
    have e : Z * Tᵀ * (T * Zᵀ) = Z * (Tᵀ * T) * Zᵀ := by simp only [Matrix.mul_assoc]
    rw [e, Matrix.trace_mul_cycle]
    have hdiff : 0 ≤ ((1 - Tᵀ * T) * (Zᵀ * Z)).trace := psd_trace_mul_nonneg h1P hZZ
    have hexp : ((1 - Tᵀ * T) * (Zᵀ * Z)).trace =
        (Zᵀ * Z).trace - (Zᵀ * Z * (Tᵀ * T)).trace := by
      rw [Matrix.sub_mul, Matrix.one_mul, Matrix.trace_sub,
        Matrix.trace_mul_comm (Tᵀ * T) (Zᵀ * Z)]
    have hZt : (Z * Zᵀ).trace = (Zᵀ * Z).trace := Matrix.trace_mul_comm Z Zᵀ
    rw [hZt]
    linarith [hdiff, hexp.symm.le, hexp.le]
  have htC : 0 ≤ C.trace := psd_trace_nonneg hC
  have hY0 : 0 ≤ (Y * Yᵀ).trace := by
    refine psd_trace_nonneg ?_
    have h0 := Matrix.posSemidef_self_mul_conjTranspose Y
    rwa [Matrix.conjTranspose_eq_transpose_of_trivial] at h0
  have hZ0 : 0 ≤ (Z * Zᵀ).trace := by
    refine psd_trace_nonneg ?_
    have h0 := Matrix.posSemidef_self_mul_conjTranspose Z
    rwa [Matrix.conjTranspose_eq_transpose_of_trivial] at h0
  have hCS := trace_mul_sq_le (Uᵀ * Y) (Z * Tᵀ)
  rw [htrRG, hRRt] at hCS
  have hmain : C.trace ^ 2 ≤ (Y * Yᵀ).trace * (Z * Zᵀ).trace :=
    hCS.trans (mul_le_mul_of_nonneg_left hGGt hY0)
  nlinarith [htC, hY0, hZ0, hmain, sq_nonneg ((Y * Yᵀ).trace - (Z * Zᵀ).trace)]

/-- Claim C1: for every pair of summaries of equal dimensionality (means of
equal length, positive-semidefinite covariances `S1`, `S2` of equal shape),
`calculate_frechet_distance` returns
`diff·diff + tr S1 + tr S2 - 2·tr(sqrtm(S1·S2))`, and this value is
non-negative.  The `sqrtm` oracle is assumed to behave as
`scipy.linalg.sqrtm` does on such inputs: the result is finite and real,
and its trace equals the trace of the positive-semidefinite square root of
`√S1·S2·√S1` (the principal square root of `S1·S2` is similar to that
matrix, so their traces agree). -/
theorem frechet_formula_and_nonneg {n : ℕ} (mu1 mu2 : List ℝ)
    (S1 S2 : Matrix (Fin n) (Fin n) ℝ)
    (hS1 : S1.PosSemidef) (hS2 : S2.PosSemidef)
    (hlen : mu1.length = mu2.length)
    (sq : NpMat ℝ → SqrtmOut ℝ) (eps : ℝ)
    (hfin : (sq (NpMat.ofMatrix (S1 * S2))).isFinite = true)
    (hcx : (sq (NpMat.ofMatrix (S1 * S2))).isComplexObj = false)
    (htr : ∃ C : Matrix (Fin n) (Fin n) ℝ, C.PosSemidef ∧
      C * C = hS1.sqrt * S2 * hS1.sqrt ∧
      NpMat.trace (sq (NpMat.ofMatrix (S1 * S2))).re = Matrix.trace C) :
    calculate_frechet_distance sq mu1 (NpMat.ofMatrix S1) mu2 (NpMat.ofMatrix S2) eps =
      .ok (dotList (List.zipWith (fun a b => a - b) mu1 mu2)
             (List.zipWith (fun a b => a - b) mu1 mu2)
           + Matrix.trace S1 + Matrix.trace S2
           - 2 * NpMat.trace (sq (NpMat.ofMatrix (S1 * S2))).re) ∧
    0 ≤ dotList (List.zipWith (fun a b => a - b) mu1 mu2)
          (List.zipWith (fun a b => a - b) mu1 mu2)
        + Matrix.trace S1 + Matrix.trace S2
        - 2 * NpMat.trace (sq (NpMat.ofMatrix (S1 * S2))).re := by
  constructor
  · unfold calculate_frechet_distance calculate_frechet_distance_instr
    rw [if_neg (by simpa using hlen), if_neg (by simp [NpMat.ofMatrix])]
    rw [NpMat.dot_ofMatrix]
    dsimp only
    rw [hfin]
    simp only [if_true]
    rw [if_neg (by rw [hcx]; simp)]
    rw [NpMat.trace_ofMatrix S1, NpMat.trace_ofMatrix S2]
  · obtain ⟨C, hCpsd, hCsq, htreq⟩ := htr
    have hSps := hS1.posSemidef_sqrt
    have hQps := hS2.posSemidef_sqrt
    have hSS : hS1.sqrt * hS1.sqrt = S1 := by rw [← pow_two]; exact hS1.sq_sqrt
    have hQQ : hS2.sqrt * hS2.sqrt = S2 := by rw [← pow_two]; exact hS2.sq_sqrt
    have hSsym : hS1.sqrtᵀ = hS1.sqrt := by
      rw [← Matrix.conjTranspose_eq_transpose_of_trivial hS1.sqrt]
      exact hSps.isHermitian
    have hQsym : hS2.sqrtᵀ = hS2.sqrt := by
      rw [← Matrix.conjTranspose_eq_transpose_of_trivial hS2.sqrt]
      exact hQps.isHermitian
    have hfact : C * C = (hS1.sqrt * hS2.sqrt) * (hS1.sqrt * hS2.sqrt)ᵀ := by
      rw [hCsq, Matrix.transpose_mul, hQsym, hSsym]
      rw [show hS1.sqrt * hS2.sqrt * (hS2.sqrt * hS1.sqrt)
          = hS1.sqrt * (hS2.sqrt * hS2.sqrt) * hS1.sqrt by simp only [Matrix.mul_assoc]]
      rw [hQQ]
    have hkey := trace_sqrt_factor_le C hS1.sqrt hS2.sqrt hCpsd hfact
    rw [hSsym, hQsym, hSS, hQQ] at hkey
    have hd := dotList_self_nonneg
      (List.zipWith (fun a b => a - b) mu1 mu2)
    rw [htreq]
    linarith

/-- Witness for C1, which is also the closed-form check of the claim: two
1-D Gaussians with means `0` and `3` and unit variances have Fréchet
distance exactly `9` (and `9` is non-negative). -/
theorem frechet_formula_and_nonneg_witness :
    calculate_frechet_distance (K := ℝ) idSqrtm [0]
        (NpMat.ofMatrix (1 : Matrix (Fin 1) (Fin 1) ℝ)) [3]
        (NpMat.ofMatrix (1 : Matrix (Fin 1) (Fin 1) ℝ)) 1 = .ok 9 ∧ (0 : ℝ) ≤ 9 := by
  have hone : (1 : Matrix (Fin 1) (Fin 1) ℝ).PosSemidef := Matrix.PosSemidef.one
  have hsqrt1 : (1 : Matrix (Fin 1) (Fin 1) ℝ) = hone.sqrt :=
    Matrix.PosSemidef.eq_sqrt_of_sq_eq hone hone (by rw [pow_two, one_mul])
  have h := frechet_formula_and_nonneg [0] [3] (1 : Matrix (Fin 1) (Fin 1) ℝ) 1
    hone hone rfl idSqrtm 1 rfl rfl
    ⟨1, hone, by rw [← hsqrt1, one_mul, one_mul], by
      show (NpMat.ofMatrix ((1 : Matrix (Fin 1) (Fin 1) ℝ) * 1)).trace = Matrix.trace 1
      rw [NpMat.trace_ofMatrix, one_mul]⟩
  refine ⟨?_, by norm_num⟩
  rw [h.1]
  have hval : dotList (List.zipWith (fun a b => a - b) ([0] : List ℝ) [3])
      (List.zipWith (fun a b => a - b) ([0] : List ℝ) [3])
      + Matrix.trace (1 : Matrix (Fin 1) (Fin 1) ℝ)
      + Matrix.trace (1 : Matrix (Fin 1) (Fin 1) ℝ)
      - 2 * NpMat.trace (idSqrtm (NpMat.ofMatrix
          ((1 : Matrix (Fin 1) (Fin 1) ℝ) * 1))).re = 9 := by
    rw [show (idSqrtm (NpMat.ofMatrix ((1 : Matrix (Fin 1) (Fin 1) ℝ) * 1))).re
        = NpMat.ofMatrix ((1 : Matrix (Fin 1) (Fin 1) ℝ) * 1) from rfl]
    rw [NpMat.trace_ofMatrix, one_mul, Matrix.trace_one]
    norm_num [dotList]
  rw [hval]

end FrechetNonneg
